import Mathlib

/-!
Shallow embedding of `src/set_up_wind_hireachy.py`.

Conventions of the embedding:
* Python `int` is `ℤ`; Python `float` arithmetic in the emitter only ever
  produces exact decimal values (multiples of 1/10), so it is modelled
  exactly over `ℚ`.
* A Python `dict` is modelled as an association list (`List (key × value)`);
  dict-ness (no duplicate keys) is an explicit hypothesis where a theorem
  needs it.  Where Python iterates over a `set` (whose order is
  unspecified), the embedding iterates in a canonical sorted order; no
  claim depends on that order.
* The XML tree is modelled post-parse: `ET.fromstring` is an external
  library, so the embedding starts from the parsed structure that
  `parse_speedtree_xml` walks (`Objects` container, `Object` children with
  a `Name` attribute and an optional `Vertices`/`BoneID` chain).
* `re.search` for the pattern `_L(\d+)` and Python `int(token)` / `str.split()`
  are modelled over the ASCII alphabet: `\d` is `0..9`, whitespace is the
  ASCII whitespace set, and `int()` accepts an optional sign followed by
  digits.  (the Unicode digits and underscore digit grouping of Python are
  outside the modelled alphabet.)
* File input is modelled as an outcome sum: the body of
  `read_speedtree_file` distinguishes a successfully read document from
  `FileNotFoundError` and `ET.ParseError`.
-/

namespace WindData

/-! ### Extractor: `extract_level_from_name` (lines 16-30) -/

/-- ASCII whitespace as split by Python `str.split()`. -/
def isPySpace (c : Char) : Bool :=
  c = ' ' || c = '\t' || c = '\n' || c = '\r' || c = '\x0b' || c = '\x0c'

/-- Numeric value of a digit run (most significant first). -/
def digitsVal (l : List Char) : ℕ :=
  l.foldl (fun n c => 10 * n + (c.toNat - 48)) 0

/-- Parse a whole character list as a nonempty digit run. -/
def digitsVal? (l : List Char) : Option ℕ :=
  if !l.isEmpty && l.all Char.isDigit then some (digitsVal l) else none

/-- Python `int(s)` on a whitespace-free token: optional sign, then digits;
anything else raises `ValueError`, modelled as `none`. -/
def pyInt? (s : String) : Option ℤ :=
  match s.toList with
  | '+' :: rest => (digitsVal? rest).map (fun n => (n : ℤ))
  | '-' :: rest => (digitsVal? rest).map (fun n => -(n : ℤ))
  | l => (digitsVal? l).map (fun n => (n : ℤ))

/-- Does `_L<digits>` match at the head of the list?  If so, return the value
of the (greedy, maximal) digit group. -/
def markerAt : List Char → Option ℕ
  | '_' :: 'L' :: rest =>
    let ds := rest.takeWhile Char.isDigit
    if ds.isEmpty then none else some (digitsVal ds)
  | _ => none

/-- Model of `re.search`: try each start position left to right, first match wins. -/
def searchLevel : List Char → Option ℕ
  | [] => none
  | c :: cs =>
    match markerAt (c :: cs) with
    | some v => some v
    | none => searchLevel cs

/-- Function `extract_level_from_name` (line 16): value of the first `_L(\d+)` match,
`None` if there is no match. -/
def extract_level_from_name (name : String) : Option ℤ :=
  (searchLevel name.toList).map (fun n => (n : ℤ))

/-! ### Extractor: `parse_speedtree_xml` (lines 32-88) -/

/-- Python `str.split()` with no argument: split on runs of whitespace, no empty
tokens.  (`.strip()` before it in the source is redundant with this.) -/
def pySplitAux : List Char → List Char → List String
  | [], acc => if acc.isEmpty then [] else [String.mk acc.reverse]
  | c :: cs, acc =>
    if isPySpace c then
      if acc.isEmpty then pySplitAux cs []
      else String.mk acc.reverse :: pySplitAux cs []
    else pySplitAux cs (c :: acc)

def pySplit (s : String) : List String := pySplitAux s.toList []

/-- Payload of one parsed `Object`: name plus bone-id occurrence counts. -/
structure ObjectData where
  name : String
  bone_id_counts : List (ℤ × ℕ)
deriving DecidableEq, Repr

/-- Model of `collections.Counter` as an association list: one entry per distinct
element with its multiplicity (entry order is canonicalized; the order of
the `dict(Counter(...))` in the source is not observable downstream). -/
def counterOf (l : List ℤ) : List (ℤ × ℕ) :=
  l.dedup.map (fun b => (b, l.count b))

/-- The `<BoneID>` element: its text may be absent (`None`). -/
structure BoneIDElem where
  text : Option String
deriving DecidableEq, Repr

/-- The `<Vertices>` element: may or may not have a `BoneID` child. -/
structure VerticesElem where
  boneID : Option BoneIDElem
deriving DecidableEq, Repr

/-- The `<Object>` element: optional `Name` attribute, optional `Vertices`. -/
structure XmlObject where
  nameAttr : Option String
  vertices : Option VerticesElem
deriving DecidableEq, Repr

/-- A parsed document: the optional `Objects` container of the root. -/
structure XmlDoc where
  objects : Option (List XmlObject)
deriving DecidableEq, Repr

/-- Lines 68-75: split the bone text, keep tokens that `int()` accepts and
that are non-negative, in token order. -/
def retainedBoneIds (t : String) : List ℤ :=
  ((pySplit t).filterMap pyInt?).filter (fun i => 0 ≤ i)

/-- Lines 61-82: walk `Vertices`/`BoneID`; any missing link or falsy text
yields empty counts. -/
def bone_id_counts_of (o : XmlObject) : List (ℤ × ℕ) :=
  match o.vertices with
  | none => []
  | some v =>
    match v.boneID with
    | none => []
    | some be =>
      match be.text with
      | none => []
      | some t => if t = "" then [] else counterOf (retainedBoneIds t)

/-- Line 85: `ObjectData(name, bone_id_counts)` with the `Name` attribute
defaulted to the empty string. -/
def objectDataOf (o : XmlObject) : ObjectData :=
  ⟨o.nameAttr.getD "", bone_id_counts_of o⟩

/-- Model of the `defaultdict(list)` append: extend the entry for `l`, or create it at the
end (dict insertion order). -/
def addToLevel : List (ℤ × List ObjectData) → ℤ → ObjectData →
    List (ℤ × List ObjectData)
  | [], l, o => [(l, [o])]
  | (k, os) :: rest, l, o =>
    if k = l then (k, os ++ [o]) :: rest else (k, os) :: addToLevel rest l o

/-- Lines 50-86: the object loop.  Objects whose name has no level marker are
skipped; the rest are appended to the list of their level. -/
def buildLevels : List XmlObject → List (ℤ × List ObjectData) →
    List (ℤ × List ObjectData)
  | [], ld => ld
  | o :: os, ld =>
    match extract_level_from_name (o.nameAttr.getD "") with
    | none => buildLevels os ld
    | some l => buildLevels os (addToLevel ld l (objectDataOf o))

/-- Function `parse_speedtree_xml` (line 32): returns `{}` when there is no `Objects`
container. -/
def parse_speedtree_xml (doc : XmlDoc) : List (ℤ × List ObjectData) :=
  match doc.objects with
  | none => []
  | some objs => buildLevels objs []

/-- Outcome of opening and parsing the input file. -/
inductive ReadOutcome where
  | fileNotFound
  | parseError
  | ok (doc : XmlDoc)
deriving DecidableEq

/-- Function `read_speedtree_file` (line 91): `FileNotFoundError` and `ET.ParseError`
are both caught and turned into `{}`. -/
def read_speedtree_file : ReadOutcome → List (ℤ × List ObjectData)
  | .fileNotFound => []
  | .parseError => []
  | .ok doc => parse_speedtree_xml doc

/-! ### Classifier: `assign_bone_ids_to_levels` (lines 104-158) -/

/-- Lines 124-130: union of the bone-id keys over the objects of a level. -/
def levelBoneIds (objs : List ObjectData) : Finset ℤ :=
  objs.foldl (fun s o => s ∪ (o.bone_id_counts.map Prod.fst).toFinset) ∅

/-- Lookup of `level_bone_ids[level]`, looked up through the level dict. -/
def boneIdsOf (ld : List (ℤ × List ObjectData)) (l : ℤ) : Finset ℤ :=
  levelBoneIds ((ld.lookup l).getD [])

/-- Lines 143-149: does `b` occur in any of the remaining (lower) levels? -/
def appearsInLower (b : ℤ) (lower : List ℤ) (f : ℤ → Finset ℤ) : Bool :=
  lower.any (fun l => decide (b ∈ f l))

/-- Lines 136-156: walk the levels from highest to lowest; at each level keep
exactly the bones that occur in no lower level.  (Python iterates the bone
set in unspecified order; the embedding uses ascending order.  Only the
mapping content of the result is ever consumed.) -/
def classifyLoop (f : ℤ → Finset ℤ) : List ℤ → List (ℤ × ℤ)
  | [] => []
  | l :: rest =>
    ((f l).sort (· ≤ ·)).filterMap
        (fun b => if appearsInLower b rest f then none else some (b, l))
      ++ classifyLoop f rest

/-- Function `assign_bone_ids_to_levels` (line 104): levels sorted descending
(`sorted(..., reverse=True)`), then the discard loop. -/
def assign_bone_ids_to_levels (ld : List (ℤ × List ObjectData)) :
    List (ℤ × ℤ) :=
  classifyLoop (boneIdsOf ld) (List.insertionSort (· ≥ ·) (ld.map Prod.fst))

/-! ### Emitter: `generate_wind_hierarchy_json` (lines 161-258) -/

structure Joint where
  jointName : String
  simulationGroupIndex : ℤ
deriving DecidableEq, Repr

/-- One simulation-group dict; optional JSON keys are `Option` fields.
Field order matches construction order in the source. -/
structure SimGroup where
  bUseDualInfluence : Bool
  influence : Option ℚ := none
  minInfluence : Option ℚ := none
  maxInfluence : Option ℚ := none
  shiftTop : Option ℚ := none
  bIsTrunkGroup : Bool
deriving DecidableEq, Repr

structure WindHierarchy where
  joints : List Joint
  simulationGroups : List SimGroup
  bIsGroundCover : Bool
  gustAttenuation : ℚ
deriving DecidableEq, Repr

/-- Python `round(x, 2)`.  Every value it is applied to in this program is an
exact multiple of 1/10, so no rounding tie can arise and the tie-breaking
convention is irrelevant. -/
def round2 (q : ℚ) : ℚ := ((round (100 * q) : ℤ) : ℚ) / 100

/-- Lines 209-213: group 0, the trunk group. -/
def trunkGroup : SimGroup :=
  { bUseDualInfluence := false
    influence := some 1.0
    bIsTrunkGroup := true }

/-- Lines 216-231: the dual-influence group with group index `g`. -/
def dualGroup (g : ℤ) : SimGroup :=
  let minI : ℚ := 0.2 + ((g : ℚ) - 1) * 0.2
  let maxI : ℚ := min 1.0 (minI + 0.4)
  let shiftT : ℚ := max 0.0 (0.3 - ((g : ℚ) - 1) * 0.1)
  { bUseDualInfluence := true
    minInfluence := some (round2 minI)
    maxInfluence := some (round2 maxI)
    shiftTop := some (round2 shiftT)
    bIsTrunkGroup := false }

/-- Model of `max(all_levels)` with `all_levels = sorted(set(values))`; total with
junk value 0 on the empty dict (the source only evaluates it on non-empty
ones). -/
def maxLevel (a : List (ℤ × ℤ)) : ℤ :=
  ((a.map Prod.snd).toFinset.max).unbot' 0

/-- Python tuple comparison on `(bone_id, level)` pairs. -/
def pairLe (p q : ℤ × ℤ) : Prop :=
  p.1 < q.1 ∨ (p.1 = q.1 ∧ p.2 ≤ q.2)

instance : DecidableRel pairLe := fun p q => by
  unfold pairLe; infer_instance

/-- Model of `sorted(bone_assignments.items())`. -/
def sortItems (a : List (ℤ × ℤ)) : List (ℤ × ℤ) :=
  List.insertionSort pairLe a

/-- Lines 189-203: the two joints of one bone entry. -/
def boneJoints (p : ℤ × ℤ) : List Joint :=
  let simulation_group_index : ℤ := max 0 (p.2 - 1)
  [⟨"Bone_" ++ toString p.1 ++ "_Start", simulation_group_index⟩,
   ⟨"Bone_" ++ toString p.1 ++ "_End", simulation_group_index⟩]

/-- Lines 179-203: root joint, then start/end joints per bone in ascending
key order. -/
def jointsOf (a : List (ℤ × ℤ)) : List Joint :=
  ⟨"Root", 0⟩ :: (sortItems a).flatMap boneJoints

/-- Lines 205-231: group 0, then one dual group per level in
`range(2, max_level + 1)`, i.e. group indices `1 .. max_level - 1`. -/
def simulationGroupsOf (m : ℤ) : List SimGroup :=
  trunkGroup ::
    (List.range (m - 1).toNat).map (fun i : ℕ => dualGroup ((i : ℤ) + 1))

/-- Lines 173-239: the document built for a non-empty assignment. -/
def generateDoc (a : List (ℤ × ℤ)) : WindHierarchy :=
  { joints := jointsOf a
    simulationGroups := simulationGroupsOf (maxLevel a)
    bIsGroundCover := false
    gustAttenuation := 0.25 }

/-- Function `generate_wind_hierarchy_json` (line 161): an empty assignment
short-circuits (`"No bone assignments provided"`) and nothing is built. -/
def generate_wind_hierarchy_json (a : List (ℤ × ℤ)) : Option WindHierarchy :=
  if a.isEmpty then none else some (generateDoc a)

/-! ### Order facts about `pairLe` (Python tuple comparison) -/

theorem pairLe_total (p q : ℤ × ℤ) : pairLe p q ∨ pairLe q p := by
  unfold pairLe; omega

theorem pairLe_trans (p q r : ℤ × ℤ) (h1 : pairLe p q) (h2 : pairLe q r) :
    pairLe p r := by
  unfold pairLe at *; omega

theorem pairLe_antisymm (p q : ℤ × ℤ) (h1 : pairLe p q) (h2 : pairLe q p) :
    p = q := by
  have hf : p.1 = q.1 := by unfold pairLe at *; omega
  have hs : p.2 = q.2 := by unfold pairLe at *; omega
  exact Prod.ext_iff.mpr ⟨hf, hs⟩

instance : IsTotal (ℤ × ℤ) pairLe := ⟨pairLe_total⟩

instance : IsTrans (ℤ × ℤ) pairLe := ⟨pairLe_trans⟩

instance : IsAntisymm (ℤ × ℤ) pairLe := ⟨pairLe_antisymm⟩

/-! ### Helper lemmas about `sortItems` and `maxLevel` -/

theorem sortItems_perm (a : List (ℤ × ℤ)) : (sortItems a).Perm a :=
  List.perm_insertionSort pairLe a

theorem sortItems_sorted (a : List (ℤ × ℤ)) : (sortItems a).Sorted pairLe :=
  List.sorted_insertionSort pairLe a

theorem sortItems_eq_of_perm {a b : List (ℤ × ℤ)} (h : a.Perm b) :
    sortItems a = sortItems b :=
  List.eq_of_perm_of_sorted
    ((sortItems_perm a).trans (h.trans (sortItems_perm b).symm))
    (sortItems_sorted a) (sortItems_sorted b)

theorem maxLevel_eq_of_perm {a b : List (ℤ × ℤ)} (h : a.Perm b) :
    maxLevel a = maxLevel b := by
  unfold maxLevel
  rw [List.toFinset_eq_of_perm _ _ (h.map Prod.snd)]

theorem snd_le_maxLevel {a : List (ℤ × ℤ)} {p : ℤ × ℤ} (hp : p ∈ a) :
    p.2 ≤ maxLevel a := by
  have hmem : p.2 ∈ (a.map Prod.snd).toFinset := by
    simp only [List.mem_toFinset, List.mem_map]
    exact ⟨p, hp, rfl⟩
  obtain ⟨m, hm⟩ := Finset.max_of_nonempty ⟨p.2, hmem⟩
  have hle := Finset.le_max hmem
  rw [hm] at hle
  unfold maxLevel
  rw [hm, WithBot.unbot'_coe]
  exact_mod_cast hle

theorem maxLevel_le {a : List (ℤ × ℤ)} {c : ℤ} (hc : 0 ≤ c)
    (h : ∀ p ∈ a, p.2 ≤ c) : maxLevel a ≤ c := by
  unfold maxLevel
  rcases (a.map Prod.snd).toFinset.eq_empty_or_nonempty with he | hne
  · rw [he]
    simpa using hc
  · obtain ⟨m, hm⟩ := Finset.max_of_nonempty hne
    rw [hm, WithBot.unbot'_coe]
    have hmm := Finset.mem_of_max hm
    simp only [List.mem_toFinset, List.mem_map] at hmm
    obtain ⟨p, hp, rfl⟩ := hmm
    exact h p hp

/-- Producing a document means the assignment was non-empty and the document
is the one built by the body of the function. -/
theorem generate_eq_some {a : List (ℤ × ℤ)} {d : WindHierarchy}
    (hd : generate_wind_hierarchy_json a = some d) :
    a.isEmpty = false ∧ d = generateDoc a := by
  unfold generate_wind_hierarchy_json at hd
  by_cases he : a.isEmpty
  · simp [he] at hd
  · rw [if_neg he] at hd
    exact ⟨by simpa using he, (Option.some.inj hd).symm⟩

theorem generateDoc_joints (a : List (ℤ × ℤ)) :
    (generateDoc a).joints = jointsOf a := rfl

theorem generateDoc_simulationGroups (a : List (ℤ × ℤ)) :
    (generateDoc a).simulationGroups = simulationGroupsOf (maxLevel a) := rfl

/-! ### Claim theorems -/

/-- C8: an unlocatable input file and a structurally malformed document are
both recovered by returning an empty `LevelIndex`, and an empty
`BoneLevelAssignment` makes the emitter short-circuit and produce no
document at all. -/
theorem error_paths_recover :
    read_speedtree_file .fileNotFound = [] ∧
    read_speedtree_file .parseError = [] ∧
    generate_wind_hierarchy_json [] = none :=
  ⟨rfl, rfl, rfl⟩

/-- C9: the emitter is deterministic: it yields identical output documents on
any two item lists that represent the same `BoneLevelAssignment` (in
particular on two runs over the very same assignment). -/
theorem emitter_deterministic (a b : List (ℤ × ℤ)) (h : a.Perm b) :
    generate_wind_hierarchy_json a = generate_wind_hierarchy_json b := by
  unfold generate_wind_hierarchy_json
  have hlen := h.length_eq
  have hemp : a.isEmpty = b.isEmpty := by
    cases a <;> cases b <;> simp_all
  rw [hemp]
  by_cases hb : b.isEmpty
  · simp only [if_pos hb]
  · simp only [if_neg hb]
    unfold generateDoc jointsOf
    rw [sortItems_eq_of_perm h, maxLevel_eq_of_perm h]

/-- C9 witness: the same assignment presented in two item orders yields the
same document. -/
theorem emitter_deterministic_witness :
    generate_wind_hierarchy_json [(1, 2), (3, 4)] =
      generate_wind_hierarchy_json [(3, 4), (1, 2)] :=
  emitter_deterministic _ _ (List.Perm.swap (3, 4) (1, 2) [])

theorem simulationGroupsOf_length (m : ℤ) :
    (simulationGroupsOf m).length = (m - 1).toNat + 1 := by
  rw [simulationGroupsOf, List.length_cons, List.length_map, List.length_range]

theorem simulationGroupsOf_get_succ (m : ℤ) (i : ℕ)
    (h : i + 1 < (simulationGroupsOf m).length) :
    (simulationGroupsOf m).get ⟨i + 1, h⟩ = dualGroup ((i : ℤ) + 1) := by
  simp only [simulationGroupsOf, List.get_eq_getElem, List.getElem_cons_succ]
  rw [List.getElem_map, List.getElem_range]

/-- C5: group 0 is always the trunk group (`is_trunk`, no dual influence,
`Influence = 1.0`, no min/max/shift fields); every later group is a
non-trunk dual-influence group with no `Influence` field; the document
constants are `is_ground_cover = false` and `gust_attenuation = 0.25`. -/
theorem group_field_invariants (a : List (ℤ × ℤ)) (d : WindHierarchy)
    (hd : generate_wind_hierarchy_json a = some d) :
    (∀ h : 0 < d.simulationGroups.length,
        d.simulationGroups.get ⟨0, h⟩ =
          { bUseDualInfluence := false, influence := some 1.0,
            minInfluence := none, maxInfluence := none, shiftTop := none,
            bIsTrunkGroup := true }) ∧
    (∀ (i : ℕ) (h : i < d.simulationGroups.length), 1 ≤ i →
        (d.simulationGroups.get ⟨i, h⟩).bIsTrunkGroup = false ∧
        (d.simulationGroups.get ⟨i, h⟩).bUseDualInfluence = true ∧
        (d.simulationGroups.get ⟨i, h⟩).influence = none ∧
        (d.simulationGroups.get ⟨i, h⟩).minInfluence.isSome = true ∧
        (d.simulationGroups.get ⟨i, h⟩).maxInfluence.isSome = true ∧
        (d.simulationGroups.get ⟨i, h⟩).shiftTop.isSome = true) ∧
    d.bIsGroundCover = false ∧ d.gustAttenuation = 0.25 := by
  obtain ⟨-, rfl⟩ := generate_eq_some hd
  refine ⟨fun h => rfl, ?_, rfl, rfl⟩
  intro i h h1
  obtain ⟨j, rfl⟩ : ∃ j, i = j + 1 := ⟨i - 1, by omega⟩
  have hget : (generateDoc a).simulationGroups.get ⟨j + 1, h⟩ =
      dualGroup ((j : ℤ) + 1) :=
    simulationGroupsOf_get_succ (maxLevel a) j h
  rw [hget]
  exact ⟨rfl, rfl, rfl, rfl, rfl, rfl⟩

/-- C5 witness at the assignment `{5: 2}`. -/
theorem group_field_invariants_witness :
    (generateDoc [(5, 2)]).bIsGroundCover = false ∧
      (generateDoc [(5, 2)]).gustAttenuation = 0.25 :=
  (group_field_invariants [(5, 2)] (generateDoc [(5, 2)]) rfl).2.2

/-- C3: the emitter produces exactly one simulation group per group index
from 0 up to `max(0, M − 1)` (gap levels included, indices contiguous and
ascending), and the group at index `g ≥ 1` carries
`MinInfluence = 0.2 + (g − 1) × 0.2`,
`MaxInfluence = min(1.0, MinInfluence + 0.4)` and
`ShiftTop = max(0.0, 0.3 − (g − 1) × 0.1)`, each rounded to 2 decimals. -/
theorem group_table_parameters (a : List (ℤ × ℤ)) (d : WindHierarchy)
    (hd : generate_wind_hierarchy_json a = some d) :
    d.simulationGroups.length = (max 0 (maxLevel a - 1)).toNat + 1 ∧
    ∀ (g : ℕ) (h : g < d.simulationGroups.length), 1 ≤ g →
      d.simulationGroups.get ⟨g, h⟩ =
        { bUseDualInfluence := true
          influence := none
          minInfluence := some (round2 (0.2 + ((g : ℚ) - 1) * 0.2))
          maxInfluence :=
            some (round2 (min 1.0 ((0.2 + ((g : ℚ) - 1) * 0.2) + 0.4)))
          shiftTop := some (round2 (max 0.0 (0.3 - ((g : ℚ) - 1) * 0.1)))
          bIsTrunkGroup := false } := by
  obtain ⟨-, rfl⟩ := generate_eq_some hd
  constructor
  · have hlen := simulationGroupsOf_length (maxLevel a)
    rw [generateDoc_simulationGroups, hlen]
    omega
  · intro g h h1
    obtain ⟨j, rfl⟩ : ∃ j, g = j + 1 := ⟨g - 1, by omega⟩
    have hget : (generateDoc a).simulationGroups.get ⟨j + 1, h⟩ =
        dualGroup ((j : ℤ) + 1) :=
      simulationGroupsOf_get_succ (maxLevel a) j h
    rw [hget]
    simp only [dualGroup]
    have hc : (((j : ℤ) + 1 : ℤ) : ℚ) = ((j + 1 : ℕ) : ℚ) := by push_cast; ring
    rw [hc]

/-- C3 witness at the assignment `{7: 3}`: the group-count equation. -/
theorem group_table_parameters_witness :
    (generateDoc [(7, 3)]).simulationGroups.length =
      (max 0 (maxLevel [(7, 3)] - 1)).toNat + 1 :=
  (group_table_parameters [(7, 3)] (generateDoc [(7, 3)]) rfl).1

/-- C10: every `SimulationGroupIndex` occurring in the emitted joints list is
a valid index into the emitted simulation-groups list. -/
theorem joint_group_index_in_bounds (a : List (ℤ × ℤ)) (d : WindHierarchy)
    (hd : generate_wind_hierarchy_json a = some d) :
    ∀ j ∈ d.joints, 0 ≤ j.simulationGroupIndex ∧
      j.simulationGroupIndex < (d.simulationGroups.length : ℤ) := by
  obtain ⟨-, rfl⟩ := generate_eq_some hd
  intro j hj
  rw [generateDoc_joints] at hj
  rw [generateDoc_simulationGroups, simulationGroupsOf_length]
  unfold jointsOf at hj
  rcases List.mem_cons.mp hj with rfl | hj
  · refine ⟨le_refl 0, ?_⟩
    have hz : (⟨"Root", 0⟩ : Joint).simulationGroupIndex = 0 := rfl
    rw [hz]
    omega
  · obtain ⟨p, hp, hjp⟩ := List.mem_flatMap.mp hj
    have hpa : p ∈ a := (sortItems_perm a).subset hp
    have hle := snd_le_maxLevel hpa
    simp only [boneJoints, List.mem_cons, List.not_mem_nil, or_false] at hjp
    have hidx : j.simulationGroupIndex = max 0 (p.2 - 1) := by
      rcases hjp with rfl | rfl <;> rfl
    rw [hidx]
    rcases max_cases 0 (p.2 - 1) with ⟨he, -⟩ | ⟨he, -⟩ <;> rw [he] <;> omega

/-- C10 witness at the assignment `{5: 2}` and its root joint. -/
theorem joint_group_index_in_bounds_witness :
    (0 : ℤ) ≤ (Joint.mk "Root" 0).simulationGroupIndex ∧
      (Joint.mk "Root" 0).simulationGroupIndex <
        ((generateDoc [(5, 2)]).simulationGroups.length : ℤ) :=
  joint_group_index_in_bounds [(5, 2)] (generateDoc [(5, 2)]) rfl
    ⟨"Root", 0⟩ (List.mem_cons_self _ _)

/-- Python `round(x, 2)` is the identity whenever `100 x` is an integer; every value
the emitter rounds is an exact multiple of 1/10, so no rounding tie can
occur and this covers all of them. -/
theorem round2_int (q : ℚ) (n : ℤ) (h : 100 * q = (n : ℚ)) : round2 q = q := by
  unfold round2
  rw [h, round_intCast, ← h, mul_comm, mul_div_assoc,
    div_self (by norm_num : (100 : ℚ) ≠ 0), mul_one]

theorem round2_minI (g : ℤ) :
    round2 (0.2 + ((g : ℚ) - 1) * 0.2) = 0.2 + ((g : ℚ) - 1) * 0.2 := by
  apply round2_int _ (20 * g)
  push_cast
  ring_nf

theorem round2_maxI (g : ℤ) :
    round2 (min 1.0 (0.2 + ((g : ℚ) - 1) * 0.2 + 0.4)) =
      min 1.0 (0.2 + ((g : ℚ) - 1) * 0.2 + 0.4) := by
  apply round2_int _ (min 100 (20 * g + 40))
  rw [mul_min_of_nonneg _ _ (by norm_num : (0 : ℚ) ≤ 100)]
  push_cast
  congr 1
  · norm_num
  · ring_nf

theorem round2_shiftT (g : ℤ) :
    round2 (max 0.0 (0.3 - ((g : ℚ) - 1) * 0.1)) =
      max 0.0 (0.3 - ((g : ℚ) - 1) * 0.1) := by
  apply round2_int _ (max 0 (40 - 10 * g))
  rw [mul_max_of_nonneg _ _ (by norm_num : (0 : ℚ) ≤ 100)]
  push_cast
  congr 1
  · norm_num
  · ring_nf

/-- The dual group with the rounding unfolded (rounding is the identity on
these exact decimal values). -/
theorem dualGroup_val (g : ℤ) :
    dualGroup g =
      { bUseDualInfluence := true, influence := none,
        minInfluence := some (0.2 + ((g : ℚ) - 1) * 0.2),
        maxInfluence := some (min 1.0 (0.2 + ((g : ℚ) - 1) * 0.2 + 0.4)),
        shiftTop := some (max 0.0 (0.3 - ((g : ℚ) - 1) * 0.1)),
        bIsTrunkGroup := false } := by
  simp only [dualGroup]
  rw [round2_minI, round2_maxI, round2_shiftT]

/-- C2 counterexample: as stated the claim is false.  On the assignment
`{0: 7}` the emitter produces group index 6 with
`MinInfluence = 1.2 > 1.0` (and `MaxInfluence = 1.0 < MinInfluence`). -/
theorem dual_influence_bounds_counterexample :
    ¬ ∀ (a : List (ℤ × ℤ)) (d : WindHierarchy),
        generate_wind_hierarchy_json a = some d →
        ∀ g ∈ d.simulationGroups, g.bUseDualInfluence = true →
          ∃ mi ma st, g.minInfluence = some mi ∧ g.maxInfluence = some ma ∧
            g.shiftTop = some st ∧ 0 ≤ mi ∧ mi ≤ 1 ∧ 0 ≤ ma ∧ ma ≤ 1 ∧
            mi ≤ ma ∧ 0 ≤ st ∧ st ≤ 0.3 := by
  intro hcl
  have hmax : maxLevel [(0, 7)] = 7 := by decide
  have hmem : dualGroup 6 ∈ (generateDoc [(0, 7)]).simulationGroups := by
    rw [generateDoc_simulationGroups, hmax]
    simp only [simulationGroupsOf, List.mem_cons, List.mem_map, List.mem_range]
    exact Or.inr ⟨5, by decide, congrArg dualGroup (by norm_num)⟩
  have h6 := hcl [(0, 7)] (generateDoc [(0, 7)]) rfl (dualGroup 6) hmem rfl
  obtain ⟨mi, ma, st, hmi, -, -, -, hmi1, -, -, -, -, -⟩ := h6
  simp only [dualGroup_val, Option.some.injEq] at hmi
  rw [← hmi] at hmi1
  norm_num at hmi1

/-- C2 (amended): for every emitted document whose source assignment has all
levels at most 6 (equivalently, all dual group indices at most 5), every
dual-influence simulation group satisfies `min_influence ≤ max_influence`,
both lie in `[0, 1]`, and `shift_top` lies in `[0, 0.3]`.  (From level 7 on
the unclamped `min_influence = 0.2 + (g − 1) × 0.2` exceeds 1, refuting
the unrestricted claim.) -/
theorem dual_influence_bounds (a : List (ℤ × ℤ)) (d : WindHierarchy)
    (hd : generate_wind_hierarchy_json a = some d)
    (hlev : ∀ p ∈ a, p.2 ≤ 6) :
    ∀ g ∈ d.simulationGroups, g.bUseDualInfluence = true →
      ∃ mi ma st, g.minInfluence = some mi ∧ g.maxInfluence = some ma ∧
        g.shiftTop = some st ∧ 0 ≤ mi ∧ mi ≤ 1 ∧ 0 ≤ ma ∧ ma ≤ 1 ∧
        mi ≤ ma ∧ 0 ≤ st ∧ st ≤ 0.3 := by
  obtain ⟨-, rfl⟩ := generate_eq_some hd
  have hM : maxLevel a ≤ 6 := maxLevel_le (by norm_num) hlev
  intro g hg hdual
  rw [generateDoc_simulationGroups] at hg
  simp only [simulationGroupsOf, List.mem_cons, List.mem_map,
    List.mem_range] at hg
  rcases hg with rfl | ⟨i, hi, rfl⟩
  · exact absurd hdual (by decide)
  · have hi4 : i ≤ 4 := by omega
    have h0 : (0 : ℚ) ≤ (i : ℚ) := Nat.cast_nonneg i
    have h4 : (i : ℚ) ≤ 4 := by exact_mod_cast hi4
    have hx : (((i : ℤ) + 1 : ℤ) : ℚ) = (i : ℚ) + 1 := by push_cast; ring
    rw [dualGroup_val, hx]
    refine ⟨_, _, _, rfl, rfl, rfl, ?_, ?_, ?_, ?_, ?_, ?_, ?_⟩
    · linarith
    · linarith
    · exact le_min (by norm_num) (by linarith)
    · exact le_trans (min_le_left _ _) (by norm_num)
    · exact le_min (by linarith) (by linarith)
    · exact le_trans (by norm_num : (0 : ℚ) ≤ 0.0) (le_max_left _ _)
    · exact max_le (by norm_num) (by linarith)

/-- C2 witness: the assignment `{0: 2}` produces the dual group of index 1
and its parameters satisfy all the bounds. -/
theorem dual_influence_bounds_witness :
    ∃ mi ma st, (dualGroup 1).minInfluence = some mi ∧
      (dualGroup 1).maxInfluence = some ma ∧
      (dualGroup 1).shiftTop = some st ∧ 0 ≤ mi ∧ mi ≤ 1 ∧ 0 ≤ ma ∧
      ma ≤ 1 ∧ mi ≤ ma ∧ 0 ≤ st ∧ st ≤ 0.3 := by
  have hmem : dualGroup 1 ∈ (generateDoc [(0, 2)]).simulationGroups := by
    rw [generateDoc_simulationGroups,
      show maxLevel [(0, 2)] = 2 from by decide]
    simp only [simulationGroupsOf, List.mem_cons, List.mem_map, List.mem_range]
    exact Or.inr ⟨0, by decide, congrArg dualGroup (by norm_num)⟩
  exact dual_influence_bounds [(0, 2)] (generateDoc [(0, 2)]) rfl (by decide)
    (dualGroup 1) hmem rfl

theorem length_flatMap_boneJoints (l : List (ℤ × ℤ)) :
    (l.flatMap boneJoints).length = 2 * l.length := by
  induction l with
  | nil => rfl
  | cons p t ih =>
    simp only [List.flatMap_cons, List.length_append, List.length_cons, ih,
      boneJoints, List.length_nil]
    omega

/-- C4: the joints list is a single root joint with group index 0 followed,
for each bone id in ascending numeric order, by a start joint and an end
joint named from the bone id, both with group index `max(0, level − 1)`;
hence `len(Joints) = 1 + 2 × len(assignment)`. -/
theorem joints_structure (a : List (ℤ × ℤ)) (d : WindHierarchy)
    (hd : generate_wind_hierarchy_json a = some d)
    (hnd : (a.map Prod.fst).Nodup) :
    d.joints = ⟨"Root", 0⟩ :: (sortItems a).flatMap boneJoints ∧
    (∀ p : ℤ × ℤ, boneJoints p =
      [⟨"Bone_" ++ toString p.1 ++ "_Start", max 0 (p.2 - 1)⟩,
       ⟨"Bone_" ++ toString p.1 ++ "_End", max 0 (p.2 - 1)⟩]) ∧
    (sortItems a).Perm a ∧
    ((sortItems a).map Prod.fst).Sorted (· < ·) ∧
    d.joints.length = 1 + 2 * a.length := by
  obtain ⟨-, rfl⟩ := generate_eq_some hd
  refine ⟨rfl, fun p => rfl, sortItems_perm a, ?_, ?_⟩
  · have hnd2 : ((sortItems a).map Prod.fst).Nodup :=
      (((sortItems_perm a).map Prod.fst).nodup_iff).mpr hnd
    have hle : ((sortItems a).map Prod.fst).Sorted (· ≤ ·) := by
      rw [List.Sorted, List.pairwise_map]
      refine (sortItems_sorted a).imp ?_
      intro p q h
      rcases h with h | ⟨h, -⟩
      · exact le_of_lt h
      · exact le_of_eq h
    exact hle.lt_of_le hnd2
  · rw [generateDoc_joints]
    unfold jointsOf
    rw [List.length_cons, length_flatMap_boneJoints, (sortItems_perm a).length_eq]
    omega

/-- C4 witness at the assignment `{10: 1, 11: 1, 20: 2, 30: 3}`: the sorted
item list is a permutation of the assignment. -/
theorem joints_structure_witness :
    (sortItems [(10, 1), (11, 1), (20, 2), (30, 3)]).Perm
      [(10, 1), (11, 1), (20, 2), (30, 3)] :=
  (joints_structure [(10, 1), (11, 1), (20, 2), (30, 3)]
    (generateDoc [(10, 1), (11, 1), (20, 2), (30, 3)]) rfl (by decide)).2.2.1

/-! ### Classifier lemmas for C1 -/

theorem appearsInLower_eq_false {b : ℤ} {lower : List ℤ} {f : ℤ → Finset ℤ} :
    appearsInLower b lower f = false ↔ ∀ m ∈ lower, b ∉ f m := by
  simp [appearsInLower]

/-- Membership in the classifier loop over a strictly descending level list:
a pair `(b, l)` is produced exactly when `l` is a level, `b` occurs at `l`,
and `l` is minimal among the listed levels at which `b` occurs. -/
theorem classifyLoop_mem {f : ℤ → Finset ℤ} {levels : List ℤ}
    (hs : levels.Sorted (· > ·)) (b l : ℤ) :
    (b, l) ∈ classifyLoop f levels ↔
      l ∈ levels ∧ b ∈ f l ∧ ∀ m ∈ levels, b ∈ f m → l ≤ m := by
  induction levels with
  | nil => simp [classifyLoop]
  | cons hd tl ih =>
    have hrel : ∀ m ∈ tl, m < hd := fun m hm => (List.sorted_cons.mp hs).1 m hm
    have htl := ih (List.sorted_cons.mp hs).2
    rw [classifyLoop]
    constructor
    · intro hmem
      rcases List.mem_append.mp hmem with hh | ht
      · obtain ⟨c, hc, he⟩ := List.mem_filterMap.mp hh
        by_cases hap : appearsInLower c tl f
        · rw [if_pos hap] at he
          exact absurd he (by simp)
        · rw [if_neg hap] at he
          have hbl := Option.some.inj he
          rw [Prod.mk.injEq] at hbl
          obtain ⟨rfl, rfl⟩ := hbl
          have hbf : c ∈ f hd := Finset.mem_sort (α := ℤ) (· ≤ ·) |>.mp hc
          have hlow : ∀ m ∈ tl, c ∉ f m :=
            appearsInLower_eq_false.mp (by simpa using hap)
          refine ⟨List.mem_cons_self _ _, hbf, ?_⟩
          intro m hm hbm
          rcases List.mem_cons.mp hm with rfl | hm2
          · exact le_refl _
          · exact absurd hbm (hlow m hm2)
      · obtain ⟨hl, hbf, hmin⟩ := htl.mp ht
        refine ⟨List.mem_cons_of_mem _ hl, hbf, ?_⟩
        intro m hm hbm
        rcases List.mem_cons.mp hm with rfl | hm2
        · exact le_of_lt (hrel l hl)
        · exact hmin m hm2 hbm
    · rintro ⟨hl, hbf, hmin⟩
      rcases List.mem_cons.mp hl with rfl | hl2
      · apply List.mem_append.mpr
        left
        apply List.mem_filterMap.mpr
        refine ⟨b, (Finset.mem_sort _).mpr hbf, ?_⟩
        have hap : appearsInLower b tl f = false := by
          apply appearsInLower_eq_false.mpr
          intro m hm hbm
          exact absurd (hmin m (List.mem_cons_of_mem _ hm) hbm)
            (not_le.mpr (hrel m hm))
        rw [if_neg (by simp [hap])]
      · apply List.mem_append.mpr
        right
        exact htl.mpr
          ⟨hl2, hbf, fun m hm hbm => hmin m (List.mem_cons_of_mem _ hm) hbm⟩

theorem classifyLoop_head_keys (f : ℤ → Finset ℤ) (hd : ℤ) (tl : List ℤ)
    (L : List ℤ) :
    (L.filterMap
        (fun c => if appearsInLower c tl f then none else some (c, hd))).map
        Prod.fst =
      L.filter (fun c => !appearsInLower c tl f) := by
  induction L with
  | nil => rfl
  | cons x xs ih =>
    by_cases hx : appearsInLower x tl f
    · simp [List.filterMap_cons, List.filter_cons, hx, ih]
    · simp [List.filterMap_cons, List.filter_cons, hx, ih]

/-- Each bone id is assigned at most once by the classifier loop. -/
theorem classifyLoop_keys_nodup {f : ℤ → Finset ℤ} {levels : List ℤ}
    (hs : levels.Sorted (· > ·)) :
    ((classifyLoop f levels).map Prod.fst).Nodup := by
  induction levels with
  | nil => simp [classifyLoop]
  | cons hd tl ih =>
    rw [classifyLoop, List.map_append]
    apply List.Nodup.append
    · rw [classifyLoop_head_keys]
      exact (Finset.sort_nodup _ _).filter _
    · exact ih (List.sorted_cons.mp hs).2
    · intro b hb1 hb2
      rw [classifyLoop_head_keys, List.mem_filter] at hb1
      have hlow : ∀ m ∈ tl, b ∉ f m :=
        appearsInLower_eq_false.mp (by simpa using hb1.2)
      obtain ⟨p, hp, hpe⟩ := List.mem_map.mp hb2
      obtain ⟨pb, pl⟩ := p
      obtain rfl : pb = b := hpe
      obtain ⟨hl, hbf, -⟩ :=
        (classifyLoop_mem (List.sorted_cons.mp hs).2 pb pl).mp hp
      exact hlow pl hl hbf

/-- C1: the classifier assigns every bone id that occurs in the bone set
of some level to exactly one level, namely the minimum level at which it
occurs, and assigns nothing else.  (The `↔` both characterizes the keys
and pins the assigned level; an empty `LevelIndex` therefore yields an
empty assignment, and a bone seen at a single level is kept there.) -/
theorem assign_min_level (ld : List (ℤ × List ObjectData))
    (hnd : (ld.map Prod.fst).Nodup) :
    ((assign_bone_ids_to_levels ld).map Prod.fst).Nodup ∧
    ∀ b l : ℤ, (b, l) ∈ assign_bone_ids_to_levels ld ↔
      (l ∈ ld.map Prod.fst ∧ b ∈ boneIdsOf ld l ∧
        ∀ m ∈ ld.map Prod.fst, b ∈ boneIdsOf ld m → l ≤ m) := by
  have hperm : (List.insertionSort (· ≥ ·) (ld.map Prod.fst)).Perm
      (ld.map Prod.fst) := List.perm_insertionSort _ _
  have hge : (List.insertionSort (· ≥ ·) (ld.map Prod.fst)).Sorted (· ≥ ·) :=
    List.sorted_insertionSort _ _
  have hnd2 : (List.insertionSort (· ≥ ·) (ld.map Prod.fst)).Nodup :=
    hperm.nodup_iff.mpr hnd
  have hsorted : (List.insertionSort (· ≥ ·) (ld.map Prod.fst)).Sorted
      (· > ·) :=
    hge.imp₂ (fun _ _ hab hne => lt_of_le_of_ne hab (Ne.symm hne)) hnd2
  constructor
  · exact classifyLoop_keys_nodup hsorted
  · intro b l
    unfold assign_bone_ids_to_levels
    rw [classifyLoop_mem hsorted]
    constructor
    · rintro ⟨hl, hbf, hmin⟩
      exact ⟨hperm.subset hl, hbf,
        fun m hm hbm => hmin m (hperm.mem_iff.mpr hm) hbm⟩
    · rintro ⟨hl, hbf, hmin⟩
      exact ⟨hperm.mem_iff.mpr hl, hbf,
        fun m hm hbm => hmin m (hperm.subset hm) hbm⟩

/-- C1 witness at the worked example of the spec
(`Trunk_L1 {10, 11}`, `Branch_L2 {11, 20}`, `Twig_L3 {20, 30}`). -/
theorem assign_min_level_witness :
    ((assign_bone_ids_to_levels
        [(1, [⟨"Trunk_L1", [(10, 1), (11, 1)]⟩]),
         (2, [⟨"Branch_L2", [(11, 1), (20, 1)]⟩]),
         (3, [⟨"Twig_L3", [(20, 1), (30, 1)]⟩])]).map Prod.fst).Nodup :=
  (assign_min_level
    [(1, [⟨"Trunk_L1", [(10, 1), (11, 1)]⟩]),
     (2, [⟨"Branch_L2", [(11, 1), (20, 1)]⟩]),
     (3, [⟨"Twig_L3", [(20, 1), (30, 1)]⟩])] (by decide)).1

/-! ### Extractor lemmas for C6 and C7 -/

theorem searchLevel_first (cs : List Char) (i v : ℕ)
    (hm : markerAt (cs.drop i) = some v)
    (hb : ∀ j, j < i → markerAt (cs.drop j) = none) :
    searchLevel cs = some v := by
  induction i generalizing cs with
  | zero =>
    rw [List.drop_zero] at hm
    cases cs with
    | nil => simp [markerAt] at hm
    | cons c cs2 => simp [searchLevel, hm]
  | succ k ih =>
    cases cs with
    | nil => rw [List.drop_nil] at hm; simp [markerAt] at hm
    | cons c cs2 =>
      have h0 := hb 0 (Nat.succ_pos k)
      rw [List.drop_zero] at h0
      rw [searchLevel, h0]
      apply ih cs2
      · rwa [List.drop_succ_cons] at hm
      · intro j hj
        have := hb (j + 1) (by omega)
        rwa [List.drop_succ_cons] at this

theorem searchLevel_none (cs : List Char)
    (hb : ∀ j, markerAt (cs.drop j) = none) :
    searchLevel cs = none := by
  induction cs with
  | nil => rfl
  | cons c cs2 ih =>
    have h0 := hb 0
    rw [List.drop_zero] at h0
    rw [searchLevel, h0]
    apply ih
    intro j
    have := hb (j + 1)
    rwa [List.drop_succ_cons] at this

theorem extract_level_nonneg {s : String} {l : ℤ}
    (h : extract_level_from_name s = some l) : 0 ≤ l := by
  unfold extract_level_from_name at h
  cases hs : searchLevel s.toList with
  | none => rw [hs] at h; simp at h
  | some n => rw [hs] at h; simp at h; omega

theorem addToLevel_keys (ld : List (ℤ × List ObjectData)) (l : ℤ)
    (o : ObjectData) :
    ∀ m, m ∈ (addToLevel ld l o).map Prod.fst →
      m ∈ ld.map Prod.fst ∨ m = l := by
  induction ld with
  | nil =>
    intro m hm
    simp [addToLevel] at hm
    exact Or.inr hm
  | cons kv rest ih =>
    obtain ⟨k, os⟩ := kv
    intro m hm
    rw [addToLevel] at hm
    by_cases hk : k = l
    · rw [if_pos hk] at hm
      simp only [List.map_cons, List.mem_cons] at hm
      rcases hm with rfl | hm
      · exact Or.inl (by simp)
      · exact Or.inl (by simp [hm])
    · rw [if_neg hk] at hm
      simp only [List.map_cons, List.mem_cons] at hm
      rcases hm with rfl | hm
      · exact Or.inl (by simp)
      · rcases ih m hm with h | h
        · exact Or.inl (by simp only [List.map_cons, List.mem_cons]; exact Or.inr h)
        · exact Or.inr h

theorem buildLevels_keys (objs : List XmlObject) :
    ∀ (ld : List (ℤ × List ObjectData)) (l : ℤ),
      l ∈ (buildLevels objs ld).map Prod.fst →
      l ∈ ld.map Prod.fst ∨
        ∃ o ∈ objs, extract_level_from_name (o.nameAttr.getD "") = some l := by
  induction objs with
  | nil => intro ld l hl; exact Or.inl hl
  | cons o os ih =>
    intro ld l hl
    cases he : extract_level_from_name (o.nameAttr.getD "") with
    | none =>
      simp only [buildLevels, he] at hl
      rcases ih ld l hl with h | ⟨o2, ho2, he2⟩
      · exact Or.inl h
      · exact Or.inr ⟨o2, List.mem_cons_of_mem _ ho2, he2⟩
    | some lv =>
      simp only [buildLevels, he] at hl
      rcases ih _ l hl with h | ⟨o2, ho2, he2⟩
      · rcases addToLevel_keys ld lv (objectDataOf o) l h with h2 | rfl
        · exact Or.inl h2
        · exact Or.inr ⟨o, List.mem_cons_self _ _, he⟩
      · exact Or.inr ⟨o2, List.mem_cons_of_mem _ ho2, he2⟩

/-- C6 counterexample: an object named `X_L0` carries the parsable marker
`_L0`, so the resulting `LevelIndex` has the key 0, which is not a
positive integer. -/
theorem extractor_positive_counterexample :
    (0 : ℤ) ∈ (parse_speedtree_xml
        ⟨some [⟨some "X_L0", none⟩]⟩).map Prod.fst ∧ ¬ (0 < (0 : ℤ)) := by
  constructor
  · decide
  · decide

/-- C6 (amended): the extractor assigns the level given by the first
`_L<digits>` marker in the name of the object; a name with no marker anywhere
yields no level and the object is skipped entirely; and every level key of
the resulting `LevelIndex` is a NON-NEGATIVE integer extracted from some
some object name (`_L0` produces the non-positive key 0, so positivity fails). -/
theorem extractor_level_rules :
    (∀ (s : String) (i v : ℕ), markerAt (s.toList.drop i) = some v →
        (∀ j, j < i → markerAt (s.toList.drop j) = none) →
        extract_level_from_name s = some (v : ℤ)) ∧
    (∀ s : String, (∀ j, markerAt (s.toList.drop j) = none) →
        extract_level_from_name s = none) ∧
    (∀ (o : XmlObject) (os : List XmlObject)
        (ld : List (ℤ × List ObjectData)),
        extract_level_from_name (o.nameAttr.getD "") = none →
        buildLevels (o :: os) ld = buildLevels os ld) ∧
    (∀ (doc : XmlDoc) (l : ℤ), l ∈ (parse_speedtree_xml doc).map Prod.fst →
        0 ≤ l ∧ ∃ o ∈ doc.objects.getD [],
          extract_level_from_name (o.nameAttr.getD "") = some l) := by
  refine ⟨?_, ?_, ?_, ?_⟩
  · intro s i v hm hb
    unfold extract_level_from_name
    rw [searchLevel_first s.toList i v hm hb]
    rfl
  · intro s hb
    unfold extract_level_from_name
    rw [searchLevel_none s.toList hb]
    rfl
  · intro o os ld he
    simp [buildLevels, he]
  · intro doc l hl
    cases hobj : doc.objects with
    | none => simp [parse_speedtree_xml, hobj] at hl
    | some objs =>
      simp only [parse_speedtree_xml, hobj] at hl
      rcases buildLevels_keys objs [] l hl with h | ⟨o, ho, he⟩
      · simp at h
      · refine ⟨extract_level_nonneg he, ?_⟩
        exact ⟨o, by simpa using ho, he⟩

/-- C6 witness: the document with the single object `A_L2` produces the
level key 2, which is non-negative and traced to that object. -/
theorem extractor_level_rules_witness :
    0 ≤ (2 : ℤ) ∧ ∃ o ∈ (⟨some [⟨some "A_L2", none⟩]⟩ : XmlDoc).objects.getD [],
      extract_level_from_name (o.nameAttr.getD "") = some 2 :=
  extractor_level_rules.2.2.2 ⟨some [⟨some "A_L2", none⟩]⟩ 2 (by decide)

/-- C7: the bone text is split on whitespace and exactly the tokens parsing
as non-negative integers are retained (non-integer tokens and negative
values are silently dropped, never an error); the counter records the
number of occurrences of each retained id; and an object with any part of
the vertex/bone chain missing (or empty text) gets an empty mapping. -/
theorem bone_token_rules :
    (∀ (t : String) (b : ℤ), b ∈ retainedBoneIds t ↔
        ∃ tok ∈ pySplit t, pyInt? tok = some b ∧ 0 ≤ b) ∧
    (∀ (t : String) (b : ℤ) (k : ℕ),
        (b, k) ∈ counterOf (retainedBoneIds t) ↔
          (b ∈ retainedBoneIds t ∧ k = (retainedBoneIds t).count b)) ∧
    (∀ n : Option String, bone_id_counts_of ⟨n, none⟩ = []) ∧
    (∀ n : Option String, bone_id_counts_of ⟨n, some ⟨none⟩⟩ = []) ∧
    (∀ n : Option String, bone_id_counts_of ⟨n, some ⟨some ⟨none⟩⟩⟩ = []) ∧
    (∀ n : Option String,
        bone_id_counts_of ⟨n, some ⟨some ⟨some ""⟩⟩⟩ = []) := by
  refine ⟨?_, ?_, fun n => rfl, fun n => rfl, fun n => rfl, fun n => rfl⟩
  · intro t b
    unfold retainedBoneIds
    constructor
    · intro h
      rw [List.mem_filter] at h
      obtain ⟨h1, h2⟩ := h
      obtain ⟨tok, htok, he⟩ := List.mem_filterMap.mp h1
      exact ⟨tok, htok, he, by simpa using h2⟩
    · rintro ⟨tok, htok, he, hb⟩
      rw [List.mem_filter]
      exact ⟨List.mem_filterMap.mpr ⟨tok, htok, he⟩, by simpa using hb⟩
  · intro t b k
    constructor
    · intro h
      obtain ⟨x, hx, he⟩ := List.mem_map.mp h
      rw [Prod.mk.injEq] at he
      obtain ⟨rfl, rfl⟩ := he
      exact ⟨List.mem_dedup.mp hx, rfl⟩
    · rintro ⟨hb, rfl⟩
      exact List.mem_map.mpr ⟨b, List.mem_dedup.mpr hb, rfl⟩

/-- C7 witness: an object with no `Vertices` element yields empty counts. -/
theorem bone_token_rules_witness :
    bone_id_counts_of ⟨none, none⟩ = [] :=
  bone_token_rules.2.2.1 none

end WindData
